import Mathlib

/-
Verification model of the fortville-scraper repository.

The repository has two pipelines:
* youtube_meeting_map.py : fetches video metadata, parses titles with
  extract_meeting_details, extracts addresses from descriptions with
  re.findall on the pattern
    \b\d{1,5}\s(?:[NSEW]\s)?(?:\w+\s){1,3}(?:St|Ave|Blvd|Rd|Dr|Ln|Ct|Pl|Way|Terr|Pkwy|Cir)\b
  groups them into a dict in group_videos_with_short_addresses, and renders
  markers in create_map_with_meeting_types (fixed map center, truthiness guard
  on coordinates, no logging).
* main.py : scrapes agenda PDFs, extracts addresses with re.findall on the
  looser pattern
    \d{1,5}\s(?:\d{1,5}\s)?(?:[NSEW]?\s)?[A-Za-z0-9]+(?:\s[A-Za-z0-9]+)*(?:St|Street|Ave|Avenue|Blvd|Road|Rd|Ln|Drive|Dr|Ct|Court|Way|N|S|E|W|NW|NE|SW|SE|Trail)?(?:,\s?[A-Za-z]+(?:,\s?[A-Za-z]{2})?)?
  applied to the sections after re.split(r'New Business|Old Business', ...),
  and renders markers in create_map (default-locality suffixing, warnings on
  geocoder misses, mean-of-coordinates viewport centering).

The regular expressions are embedded as executable matchers over List Char
that reproduce Python's leftmost, greedy, backtracking search for these
specific patterns.  Character classes are modelled at ASCII level
(\w as alphanumeric or underscore, \d as decimal digit, \s as the six ASCII
whitespace characters), which is exact for the ASCII inputs the patterns
target.  Coordinates (Python floats) are modelled as rationals.
-/

namespace FortvilleScraper

/-- ASCII model of the regex class \s (whitespace). -/
def isSpaceCh (c : Char) : Bool :=
  c = ' ' || c = '\t' || c = '\n' || c = '\r' || c = '\x0b' || c = '\x0c'

/-- ASCII model of the regex class \w (word character). -/
def isWordCh (c : Char) : Bool :=
  c.isAlphanum || c = '_'

/-- Model of Python str.strip(): remove leading and trailing whitespace. -/
def trimChars (l : List Char) : List Char :=
  ((l.dropWhile isSpaceCh).reverse.dropWhile isSpaceCh).reverse

/-- String wrapper for trimChars. -/
def trimStr (s : String) : String :=
  String.mk (trimChars s.data)

/-! Model of extract_meeting_details (youtube_meeting_map.py, lines 7-17).

The source runs re.match with pattern (\d{2}/\d{2}/\d{2}) - (.+) on the
title: anchored at the start, the date part is fixed-width, and the greedy
(.+) needs at least one character and stops at the first newline. -/

/-- Leading-date parser for the anchored, fixed-width part
(\d{2}/\d{2}/\d{2}) followed by the literal " - ": on success it returns the
eight date characters and the remainder of the title. -/
def parseDateDash : List Char → Option (List Char × List Char)
  | a :: b :: '/' :: c :: d :: '/' :: e :: f :: ' ' :: '-' :: ' ' :: rest =>
    if a.isDigit && b.isDigit && c.isDigit && d.isDigit && e.isDigit && f.isDigit then
      some ([a, b, '/', c, d, '/', e, f], rest)
    else none
  | _ => none

/-- Model of extract_meeting_details: the greedy (.+) group matches the run
of characters up to the first newline and must be nonempty, otherwise
re.match fails and the function returns (None, None). -/
def extract_meeting_details (title : String) : Option String × Option String :=
  match parseDateDash title.data with
  | some p =>
    let cat := p.2.takeWhile (fun ch => ch ≠ '\n')
    if cat.isEmpty then (none, none)
    else (some (String.mk p.1), some (String.mk cat))
  | none => (none, none)

/-! Model of the video-description address pattern
\b\d{1,5}\s(?:[NSEW]\s)?(?:\w+\s){1,3}(?:St|Ave|Blvd|Rd|Dr|Ln|Ct|Pl|Way|Terr|Pkwy|Cir)\b
used by group_videos_with_short_addresses (youtube_meeting_map.py, line 25),
with re.findall semantics. -/

/-- Street-type alternation of the video pattern, in source order. -/
def shortSuffixes : List String :=
  ["St", "Ave", "Blvd", "Rd", "Dr", "Ln", "Ct", "Pl", "Way", "Terr", "Pkwy", "Cir"]

/-- Word-boundary test for the position before l (the previous character is
always a word character when this is consulted). -/
def boundaryAfter (l : List Char) : Bool :=
  match l.head? with
  | none => true
  | some c => !(isWordCh c)

/-- One repetition of the fragment (?:\w+\s): because \w and \s are disjoint,
the greedy \w+ deterministically takes the maximal word run, which must be
nonempty and be followed by exactly one whitespace character. -/
def wordSpace (l : List Char) : Option (List Char × List Char) :=
  let w := l.takeWhile isWordCh
  if w.isEmpty then none
  else
    match l.drop w.length with
    | c :: rest => if isSpaceCh c then some (w ++ [c], rest) else none
    | [] => none

/-- Alternation (?:St|Ave|...|Cir) followed by \b: alternatives are tried in
source order, and an alternative is kept only if the trailing word boundary
holds after it. -/
def tryShortSuffix : List String → List Char → Option (List Char × List Char)
  | [], _ => none
  | s :: ss, l =>
    if (l.take s.length == s.data) && boundaryAfter (l.drop s.length) then
      some (s.data, l.drop s.length)
    else tryShortSuffix ss l

/-- Greedy (?:\w+\s){1,n+1} followed by the street-type alternation: one
repetition is mandatory, further repetitions are preferred (greedy), and on
failure of the continuation the matcher backtracks to try the alternation at
the current point, exactly as Python's backtracking engine does. -/
def wordRunsThenSuffix : Nat → List Char → Option (List Char × List Char)
  | n, l =>
    match wordSpace l with
    | none => none
    | some p =>
      match n with
      | 0 =>
        match tryShortSuffix shortSuffixes p.2 with
        | some q => some (p.1 ++ q.1, q.2)
        | none => none
      | m + 1 =>
        match wordRunsThenSuffix m p.2 with
        | some q => some (p.1 ++ q.1, q.2)
        | none =>
          match tryShortSuffix shortSuffixes p.2 with
          | some q => some (p.1 ++ q.1, q.2)
          | none => none

/-- Optional directional group (?:[NSEW]\s)? with backtracking: the greedy
engine first tries to consume the group, and if the rest of the pattern then
fails it retries without it. -/
def directionThenRuns (l : List Char) : Option (List Char × List Char) :=
  match l with
  | c :: s :: rest =>
    if (c = 'N' || c = 'S' || c = 'E' || c = 'W') && isSpaceCh s then
      match wordRunsThenSuffix 2 rest with
      | some p => some (c :: s :: p.1, p.2)
      | none => wordRunsThenSuffix 2 l
    else wordRunsThenSuffix 2 l
  | _ => wordRunsThenSuffix 2 l

/-- Attempt of the video address pattern at the head of l.  The scanner has
already established the leading word boundary.  \d{1,5} is greedy but is
followed by \s, so it succeeds exactly when the maximal digit run has length
1 to 5 and is followed by one whitespace character. -/
def shortMatchHere (l : List Char) : Option (List Char) :=
  let ds := l.takeWhile Char.isDigit
  if ds.isEmpty || 5 < ds.length then none
  else
    match l.drop ds.length with
    | c :: rest =>
      if isSpaceCh c then
        match directionThenRuns rest with
        | some p => some (ds ++ c :: p.1)
        | none => none
      else none
    | [] => none

/-- Scanner implementing re.findall for the video pattern: positions are
tried left to right, the pattern may only start where the word boundary \b
holds (the previous character is not a word character, since the pattern
starts with \d), and scanning resumes after the end of each match.  The fuel
argument bounds the recursion and is always sufficient. -/
def shortScan : Nat → Bool → List Char → List (List Char)
  | 0, _, _ => []
  | _ + 1, _, [] => []
  | fuel + 1, prevWord, c :: rest =>
    if !prevWord then
      match shortMatchHere (c :: rest) with
      | some m =>
        m :: shortScan fuel
          (match m.getLast? with
           | some d => isWordCh d
           | none => prevWord)
          ((c :: rest).drop m.length)
      | none => shortScan fuel (isWordCh c) rest
    else shortScan fuel (isWordCh c) rest

/-- Model of re.findall(address_pattern, text) for the video pattern. -/
def shortFindAll (text : String) : List String :=
  (shortScan (text.data.length + 1) false text.data).map (fun m => String.mk m)

/-! Model of the agenda address pattern of extract_addresses_from_pdf
(main.py, line 48):
\d{1,5}\s(?:\d{1,5}\s)?(?:[NSEW]?\s)?[A-Za-z0-9]+(?:\s[A-Za-z0-9]+)*(?:St|Street|Ave|Avenue|Blvd|Road|Rd|Ln|Drive|Dr|Ct|Court|Way|N|S|E|W|NW|NE|SW|SE|Trail)?(?:,\s?[A-Za-z]+(?:,\s?[A-Za-z]{2})?)?
Note this pattern has no leading \b and all of its trailing groups are
optional. -/

/-- Street-type alternation of the agenda pattern, in source order. -/
def pdfSuffixes : List String :=
  ["St", "Street", "Ave", "Avenue", "Blvd", "Road", "Rd", "Ln", "Drive", "Dr",
   "Ct", "Court", "Way", "N", "S", "E", "W", "NW", "NE", "SW", "SE", "Trail"]

/-- Plain literal alternation without a trailing boundary check, in order. -/
def tryLiteral : List String → List Char → Option (List Char × List Char)
  | [], _ => none
  | s :: ss, l =>
    if l.take s.length == s.data then some (s.data, l.drop s.length)
    else tryLiteral ss l

/-- Greedy star (?:\s[A-Za-z0-9]+)*: repetitions consume one whitespace
character followed by a maximal nonempty alphanumeric run; the continuation
of this star is all-optional, so the greedy result is final. -/
def pdfWordStar : Nat → List Char → List Char × List Char
  | 0, l => ([], l)
  | _ + 1, [] => ([], [])
  | fuel + 1, c :: rest =>
    let w := rest.takeWhile Char.isAlphanum
    if isSpaceCh c && !w.isEmpty then
      let p := pdfWordStar fuel (rest.drop w.length)
      (c :: (w ++ p.1), p.2)
    else ([], c :: rest)

/-- Inner optional group (?:,\s?[A-Za-z]{2})?: a comma, an optional single
whitespace character, then exactly two letters (requiring at least two to be
available); otherwise it matches the empty string. -/
def pdfStateTail (l : List Char) : List Char × List Char :=
  match l with
  | ',' :: rest =>
    let sp := match rest.head? with
      | some s => if isSpaceCh s then 1 else 0
      | none => 0
    let body := rest.drop sp
    let w := body.takeWhile Char.isAlpha
    if 2 ≤ w.length then
      (',' :: (rest.take sp ++ w.take 2), body.drop 2)
    else ([], ',' :: rest)
  | _ => ([], l)

/-- Outer optional group (?:,\s?[A-Za-z]+(?:,\s?[A-Za-z]{2})?)?: a comma, an
optional single whitespace character, a maximal nonempty letter run, then the
optional state tail; if the letter run is empty the whole group matches the
empty string (backtracking over \s? cannot help, a whitespace character is
not a letter). -/
def pdfCityState (l : List Char) : List Char × List Char :=
  match l with
  | ',' :: rest =>
    let sp := match rest.head? with
      | some s => if isSpaceCh s then 1 else 0
      | none => 0
    let body := rest.drop sp
    let w := body.takeWhile Char.isAlpha
    if w.isEmpty then ([], ',' :: rest)
    else
      let st := pdfStateTail (body.drop w.length)
      (',' :: (rest.take sp ++ w ++ st.1), st.2)
  | _ => ([], l)

/-- Body of the agenda pattern from [A-Za-z0-9]+ on.  The greedy mandatory
run is followed only by optional groups, so no backtracking into it occurs;
the street-type alternation is tried in order without any boundary check; the
city/state group closes the match. -/
def pdfBody (l : List Char) : Option (List Char) :=
  let w := l.takeWhile Char.isAlphanum
  if w.isEmpty then none
  else
    let rest := l.drop w.length
    let star := pdfWordStar rest.length rest
    let suf :=
      match tryLiteral pdfSuffixes star.2 with
      | some q => q
      | none => ([], star.2)
    let cs := pdfCityState suf.2
    some (w ++ star.1 ++ suf.1 ++ cs.1)

/-- Options (?:\s) and empty of the group (?:[NSEW]?\s)? (inner class
absent), tried in that order with backtracking into the body. -/
def pdfSpaceThenBody (l : List Char) : Option (List Char) :=
  match l with
  | c :: rest =>
    if isSpaceCh c then
      match pdfBody rest with
      | some t => some (c :: t)
      | none => pdfBody (c :: rest)
    else pdfBody (c :: rest)
  | [] => pdfBody l

/-- Optional group (?:[NSEW]?\s)? in full: first the variant with the
directional letter, then one whitespace alone, then the empty match, each
with backtracking if the rest of the pattern fails. -/
def pdfDirThenBody (l : List Char) : Option (List Char) :=
  match l with
  | c :: s :: rest =>
    if (c = 'N' || c = 'S' || c = 'E' || c = 'W') && isSpaceCh s then
      match pdfBody rest with
      | some t => some (c :: s :: t)
      | none => pdfSpaceThenBody (c :: s :: rest)
    else pdfSpaceThenBody (c :: s :: rest)
  | _ => pdfSpaceThenBody l

/-- Optional secondary number group (?:\d{1,5}\s)? with backtracking: it can
match only when the maximal digit run has length 1 to 5 and is followed by a
whitespace character, and it is dropped if the rest of the pattern then
fails. -/
def pdfAfterNumber (l : List Char) : Option (List Char) :=
  let ds := l.takeWhile Char.isDigit
  if !ds.isEmpty && ds.length ≤ 5 then
    match l.drop ds.length with
    | c :: rest =>
      if isSpaceCh c then
        match pdfDirThenBody rest with
        | some t => some (ds ++ c :: t)
        | none => pdfDirThenBody l
      else pdfDirThenBody l
    | [] => pdfDirThenBody l
  else pdfDirThenBody l

/-- Attempt of the agenda pattern at the head of l: leading \d{1,5}\s exactly
as in the video pattern, but with no word-boundary requirement. -/
def pdfMatchHere (l : List Char) : Option (List Char) :=
  let ds := l.takeWhile Char.isDigit
  if ds.isEmpty || 5 < ds.length then none
  else
    match l.drop ds.length with
    | c :: rest =>
      if isSpaceCh c then
        match pdfAfterNumber rest with
        | some t => some (ds ++ c :: t)
        | none => none
      else none
    | [] => none

/-- Scanner implementing re.findall for the agenda pattern: every position is
a candidate start (no \b in the pattern). -/
def pdfScan : Nat → List Char → List (List Char)
  | 0, _ => []
  | _ + 1, [] => []
  | fuel + 1, c :: rest =>
    match pdfMatchHere (c :: rest) with
    | some m => m :: pdfScan fuel ((c :: rest).drop m.length)
    | none => pdfScan fuel rest

/-- Model of re.findall(address_pattern, section) for the agenda pattern. -/
def pdfFindAll (text : String) : List String :=
  (pdfScan (text.data.length + 1) text.data).map (fun m => String.mk m)

/-! Model of the section split and of the text-level part of
extract_addresses_from_pdf (main.py, lines 46-62): the page text is split on
the case-insensitive delimiters "New Business" and "Old Business" and the
pattern is applied to every section after the first. -/

/-- Case-insensitive test for one of the two twelve-character delimiters at
the head of l. -/
def delimAt (l : List Char) : Bool :=
  ((l.take 12).map Char.toLower == "new business".data) ||
  ((l.take 12).map Char.toLower == "old business".data)

/-- Model of re.split(r'New Business|Old Business', text, flags=IGNORECASE):
scan left to right, cut at every delimiter occurrence, and drop the twelve
delimiter characters. -/
def splitSections : Nat → List Char → List Char → List (List Char)
  | 0, acc, l => [acc.reverse ++ l]
  | _ + 1, acc, [] => [acc.reverse]
  | fuel + 1, acc, c :: rest =>
    if delimAt (c :: rest) then
      acc.reverse :: splitSections fuel [] ((c :: rest).drop 12)
    else splitSections fuel (c :: acc) rest

/-- Text-level core of extract_addresses_from_pdf: split into sections, keep
the sections after the first, and concatenate the findall results. -/
def extract_addresses_from_text (text : String) : List String :=
  ((splitSections (text.data.length + 1) [] text.data).drop 1).flatMap
    (fun sec => (pdfScan (sec.length + 1) sec).map (fun m => String.mk m))

/-! Model of the grouping index built by group_videos_with_short_addresses
(youtube_meeting_map.py, lines 20-46).  A Python dict with string keys,
insertion-ordered, is modelled as an association list to which new keys are
appended at the end. -/

/-- Fetched video record: id, title and description text. -/
structure VideoInfo where
  video_id : String
  title : String
  description : String
  deriving DecidableEq

/-- One detail entry of the grouping index, as appended at
youtube_meeting_map.py lines 38-44. -/
structure MeetingDetail where
  date : Option String
  meeting_type : Option String
  video_url : String
  description_file_url : String
  description : String
  deriving DecidableEq

/-- Address dictionary: insertion-ordered map from address string to its
detail entries. -/
abbrev AddressDict : Type := List (String × List MeetingDetail)

/-- Detail entry built for one video, with the recording and description
links as in the source. -/
def videoDetailOf (base_file_url : String) (v : VideoInfo) : MeetingDetail :=
  { date := (extract_meeting_details v.title).1,
    meeting_type := (extract_meeting_details v.title).2,
    video_url := "https://www.youtube.com/watch?v=" ++ v.video_id,
    description_file_url := base_file_url ++ "/" ++ v.video_id ++ ".txt",
    description := v.description }

/-- Key set of the dictionary, in insertion order. -/
def addressKeys (d : AddressDict) : List String :=
  d.map Prod.fst

/-- Dict lookup returning the entry list of a key, or the empty list when the
key is absent. -/
def entriesAt : AddressDict → String → List MeetingDetail
  | [], _ => []
  | kv :: rest, a => if kv.1 = a then kv.2 else entriesAt rest a

/-- Model of the two-statement dict update: if the address is not yet a key
it is bound to the empty list (appended at the end, as dict insertion order
does), and the detail entry is appended to its list. -/
def upsertDetail (d : AddressDict) (address : String) (e : MeetingDetail) : AddressDict :=
  if address ∈ addressKeys d then
    d.map (fun kv => if kv.1 = address then (kv.1, kv.2 ++ [e]) else kv)
  else d ++ [(address, [e])]

/-- Model of group_videos_with_short_addresses: for every video in order,
extract the addresses from its description and append one detail entry per
extracted address occurrence. -/
def group_videos_with_short_addresses (video_details : List VideoInfo) (base_file_url : String) : AddressDict :=
  video_details.foldl
    (fun d v =>
      (shortFindAll v.description).foldl
        (fun d2 a => upsertDetail d2 a (videoDetailOf base_file_url v)) d)
    []

/-! Model of geocode_address and create_map_with_meeting_types
(youtube_meeting_map.py, lines 59-92).  The Google geocoding collaborator is
a function from an address to an optional coordinate pair (the location of
the first geocoding result); coordinates are rationals standing for the
Python floats. -/

/-- Model of geocode_address: on a nonempty geocoding result the location's
latitude and longitude, otherwise the pair (None, None). -/
def geocode_address (g : String → Option (Rat × Rat)) (address : String) :
    Option Rat × Option Rat :=
  match g address with
  | some ll => (some ll.1, some ll.2)
  | none => (none, none)

/-- Python truthiness of an optional float: None and 0.0 are falsy. -/
def pyTruthy : Option Rat → Bool
  | none => false
  | some x => !(x == 0)

/-- Python string formatting of an optional string: None prints as "None". -/
def pyStrOfOpt : Option String → String
  | none => "None"
  | some s => s

/-- HTML list item built for one detail entry inside the popup. -/
def ytDetailItem (v : MeetingDetail) : String :=
  "<li>" ++
  "<b>" ++ pyStrOfOpt v.date ++ " - " ++ pyStrOfOpt v.meeting_type ++ "</b><br>" ++
  "Recording: <a href=\"" ++ v.video_url ++ "\" target=\"_blank\">Watch Video</a><br>" ++
  "Description: <a href=\"" ++ v.description_file_url ++ "\" target=\"_blank\">View Details</a>" ++
  "</li>"

/-- Popup content of one marker: the address and the concatenated detail
items, as built at youtube_meeting_map.py lines 78-89. -/
def ytPopup (address : String) (videos : List MeetingDetail) : String :=
  "<b>Address:</b> " ++ address ++ "<br>" ++
  "<b>Details:</b><ul>" ++ String.join (videos.map ytDetailItem) ++ "</ul>"

/-- Marker placed by create_map_with_meeting_types; the address field records
which dictionary key produced the marker (it is also embedded in the popup
text). -/
structure YtMarker where
  address : String
  lat : Rat
  lng : Rat
  popup : String
  deriving DecidableEq

/-- Result of the video map builder: the geocoder calls it made in order,
the markers added, the warning diagnostics emitted, and the map's viewport
center. -/
structure YtRenderResult where
  calls : List String
  markers : List YtMarker
  warnings : List String
  center : Rat × Rat
  deriving DecidableEq

/-- Accumulator of the loop over the address dictionary. -/
structure YtAcc where
  calls : List String
  markers : List YtMarker
  deriving DecidableEq

/-- One iteration of the loop of create_map_with_meeting_types: geocode the
address (exactly one collaborator call), and add a marker only when both
coordinates are truthy; no diagnostic is emitted on the skip path. -/
def ytStep (g : String → Option (Rat × Rat)) (acc : YtAcc)
    (kv : String × List MeetingDetail) : YtAcc :=
  let glr := geocode_address g kv.1
  let acc1 : YtAcc := { acc with calls := acc.calls ++ [kv.1] }
  if pyTruthy glr.1 && pyTruthy glr.2 then
    { acc1 with markers := acc1.markers ++
        [{ address := kv.1, lat := glr.1.getD 0, lng := glr.2.getD 0,
           popup := ytPopup kv.1 kv.2 }] }
  else acc1

/-- Model of create_map_with_meeting_types: the folium map is created with
the fixed center [39.7684, -86.1581] and never recentered; the function emits
no warnings. -/
def create_map_with_meeting_types (address_dict : AddressDict)
    (g : String → Option (Rat × Rat)) : YtRenderResult :=
  let acc := address_dict.foldl (ytStep g) { calls := [], markers := [] }
  { calls := acc.calls, markers := acc.markers, warnings := [],
    center := (39.7684, -86.1581) }

/-! Model of create_map (main.py, lines 115-152), the agenda-pipeline map
builder: suffixes comma-free addresses with the default locality, geocodes
each address occurrence once, logs a warning on a miss, and centers the map
on the mean coordinates when any marker exists. -/

/-- Default locality appended by create_map. -/
def default_city : String := "Fortville"

/-- Default region appended by create_map. -/
def default_state : String := "IN"

/-- Suffixing step of create_map: an address with no comma gets the default
city and state appended. -/
def withDefaultSuffix (address : String) : String :=
  if address.data.contains ',' then address
  else address ++ ", " ++ default_city ++ ", " ++ default_state

/-- One meeting scraped by get_meeting_data: agenda label, agenda URL and the
addresses extracted from the agenda PDF. -/
structure Meeting where
  agenda : String
  agenda_url : String
  addresses : List String
  deriving DecidableEq

/-- Marker placed by create_map. -/
structure AgendaMarker where
  lat : Rat
  lng : Rat
  popup : String
  deriving DecidableEq

/-- Result of the agenda map builder. -/
structure AgendaRenderResult where
  calls : List String
  markers : List AgendaMarker
  warnings : List String
  center : Rat × Rat
  deriving DecidableEq

/-- Accumulator of the loops of create_map, carrying the latitude and
longitude accumulator lists of the source. -/
structure AgendaAcc where
  calls : List String
  markers : List AgendaMarker
  warnings : List String
  latitudes : List Rat
  longitudes : List Rat
  deriving DecidableEq

/-- One iteration of the inner loop of create_map: suffix the address,
geocode it once, and either record the coordinates and the marker or log a
warning. -/
def agendaStep (g : String → Option (Rat × Rat)) (agenda : String)
    (acc : AgendaAcc) (address0 : String) : AgendaAcc :=
  let address := withDefaultSuffix address0
  match g address with
  | some ll =>
    { acc with
      calls := acc.calls ++ [address]
      latitudes := acc.latitudes ++ [ll.1]
      longitudes := acc.longitudes ++ [ll.2]
      markers := acc.markers ++
        [{ lat := ll.1, lng := ll.2,
           popup := "Agenda: " ++ agenda ++ "\nAddress: " ++ address }] }
  | none =>
    { acc with
      calls := acc.calls ++ [address]
      warnings := acc.warnings ++ ["No location found for address: " ++ address] }

/-- Arithmetic mean of a list of rationals. -/
def listMean (l : List Rat) : Rat :=
  l.sum / (l.length : Rat)

/-- Model of create_map: iterate over all meetings and their addresses, then
set the viewport center to the mean of the collected coordinates when both
accumulator lists are nonempty (Python truthiness of the lists), and to the
fixed default [40.7128, -74.0060] otherwise. -/
def create_map (meetings : List Meeting) (g : String → Option (Rat × Rat)) :
    AgendaRenderResult :=
  let acc := meetings.foldl
    (fun a m => m.addresses.foldl (agendaStep g m.agenda) a)
    { calls := [], markers := [], warnings := [], latitudes := [], longitudes := [] }
  { calls := acc.calls, markers := acc.markers, warnings := acc.warnings,
    center :=
      if !acc.latitudes.isEmpty && !acc.longitudes.isEmpty then
        (listMean acc.latitudes, listMean acc.longitudes)
      else (40.7128, -74.0060) }

/-! Model of main (youtube_meeting_map.py, lines 134-161) as the sequence of
pipeline stages it runs. -/

/-- Stages of the video pipeline, in program order. -/
inductive PipelineStage
  | fetch_videos
  | save_descriptions
  | group_videos
  | build_map
  | save_map
  deriving DecidableEq

/-- Model of main: reading the GOOGLE_API_KEY environment variable is the
first action; when the variable is unset (or empty, Python falsiness) a
ValueError is raised before any other stage runs, otherwise all stages run
in order. -/
def mainPipeline (google_api_key : Option String) : Except String (List PipelineStage) :=
  if (google_api_key.getD "").isEmpty then
    Except.error "GOOGLE_API_KEY environment variable is not set"
  else
    Except.ok [PipelineStage.fetch_videos, PipelineStage.save_descriptions,
               PipelineStage.group_videos, PipelineStage.build_map,
               PipelineStage.save_map]

/-! Definitions written from the specification's words, used to state the
claims that quantify over "titles of the template shape" and "texts with no
digit-led token". -/

/-- Spec wording of claim C3: the title begins with a two-digit, two-digit,
two-digit date followed by the literal " - ". -/
def titleBeginsWithDateDash (t : String) : Bool :=
  match t.data with
  | a :: b :: '/' :: c :: d :: '/' :: e :: f :: ' ' :: '-' :: ' ' :: _ =>
    a.isDigit && b.isDigit && c.isDigit && d.isDigit && e.isDigit && f.isDigit
  | _ => false

/-- Amended condition for claim C3: at least one character follows " - " and
the character right after " - " is not a newline (so the regex group (.+) can
match). -/
def titleHasCategoryChar (t : String) : Bool :=
  match (t.data.drop 11).head? with
  | some ch => ch ≠ '\n'
  | none => false

/-- Spec wording of claims C8 and C2: a token beginning with a digit, that
is, a digit character at a word-boundary position (at the start of the text
or right after a non-word character). -/
def digitLedTokenAux : Bool → List Char → Bool
  | _, [] => false
  | prevWord, c :: rest =>
    (!prevWord && c.isDigit) || digitLedTokenAux (isWordCh c) rest

/-- Whole-text version of digitLedTokenAux, starting at a boundary. -/
def hasDigitLedToken (text : String) : Bool :=
  digitLedTokenAux false text.data

/-- Warning text emitted by create_map for one extracted address when the
geocoder returns no location, and nothing otherwise. -/
def missWarning (g : String → Option (Rat × Rat)) (address0 : String) : List String :=
  match g (withDefaultSuffix address0) with
  | some _ => []
  | none => ["No location found for address: " ++ withDefaultSuffix address0]

/-! Lemmas about the dictionary model. -/

lemma entriesAt_eq_nil_of_not_mem (d : AddressDict) (a : String)
    (h : a ∉ addressKeys d) : entriesAt d a = [] := by
  induction d with
  | nil => rfl
  | cons kv rest ih =>
    simp only [addressKeys, List.map_cons, List.mem_cons, not_or] at h
    have h1 : ¬ kv.1 = a := fun hh => h.1 hh.symm
    simp only [entriesAt, if_neg h1]
    exact ih (by simpa [addressKeys] using h.2)

lemma entriesAt_append (d d' : AddressDict) (a : String) :
    entriesAt (d ++ d') a =
      if a ∈ addressKeys d then entriesAt d a else entriesAt d' a := by
  simp only [addressKeys]
  induction d with
  | nil => simp [entriesAt]
  | cons kv rest ih =>
    by_cases h : kv.1 = a
    · simp [entriesAt, h]
    · have h' : ¬ a = kv.1 := fun hh => h hh.symm
      by_cases hm : a ∈ List.map Prod.fst rest <;>
        simp [entriesAt, h, h', ih, hm]

lemma entriesAt_appendAt (d : AddressDict) (k : String) (e : MeetingDetail) (a : String) :
    entriesAt (d.map (fun kv => if kv.1 = k then (kv.1, kv.2 ++ [e]) else kv)) a =
      if k = a ∧ a ∈ addressKeys d then entriesAt d a ++ [e]
      else entriesAt d a := by
  simp only [addressKeys]
  induction d with
  | nil => simp [entriesAt]
  | cons kv rest ih =>
    by_cases hk : kv.1 = k
    · by_cases ha : kv.1 = a
      · have hka : k = a := hk.symm.trans ha
        simp [entriesAt, hk, ha, hka]
      · have hka : ¬ (k = a) := fun hh => ha (hk.trans hh)
        have ha' : ¬ a = kv.1 := fun hh => ha hh.symm
        simp [entriesAt, hk, ha, hka, ha', ih]
    · by_cases ha : kv.1 = a
      · have hka : ¬ (k = a) := fun hh => hk (hh.symm ▸ ha)
        have hka' : ¬ a = k := fun hh => hka hh.symm
        simp [entriesAt, hk, ha, hka, hka']
      · have ha' : ¬ a = kv.1 := fun hh => ha hh.symm
        by_cases hm : a ∈ List.map Prod.fst rest <;>
          simp [entriesAt, hk, ha, ha', ih, hm]

lemma entriesAt_upsert (d : AddressDict) (k : String) (e : MeetingDetail) (a : String) :
    entriesAt (upsertDetail d k e) a =
      if k = a then entriesAt d a ++ [e] else entriesAt d a := by
  unfold upsertDetail
  by_cases hc : k ∈ addressKeys d
  · rw [if_pos hc, entriesAt_appendAt]
    by_cases hka : k = a
    · have : a ∈ addressKeys d := hka ▸ hc
      simp [hka, this]
    · simp [hka]
  · rw [if_neg hc, entriesAt_append]
    by_cases hka : k = a
    · have hda : a ∉ addressKeys d := fun hh => hc (hka ▸ hh)
      have hnil : entriesAt d a = [] := entriesAt_eq_nil_of_not_mem d a hda
      simp [hda, hnil, entriesAt, hka]
    · by_cases hda : a ∈ addressKeys d
      · simp [hda, hka]
      · have hnil : entriesAt d a = [] := entriesAt_eq_nil_of_not_mem d a hda
        simp [hda, hka, hnil, entriesAt]

lemma addressKeys_upsert (d : AddressDict) (k : String) (e : MeetingDetail) :
    addressKeys (upsertDetail d k e) =
      if k ∈ addressKeys d then addressKeys d else addressKeys d ++ [k] := by
  unfold upsertDetail
  by_cases hc : k ∈ addressKeys d
  · rw [if_pos hc, if_pos hc]
    unfold addressKeys
    rw [List.map_map]
    apply List.map_congr_left
    intro kv _
    by_cases h : kv.1 = k <;> simp [h, Function.comp]
  · simp only [addressKeys] at hc
    simp only [addressKeys]
    simp [hc]

lemma nodup_addressKeys_upsert (d : AddressDict) (k : String) (e : MeetingDetail)
    (h : (addressKeys d).Nodup) : (addressKeys (upsertDetail d k e)).Nodup := by
  rw [addressKeys_upsert]
  by_cases hc : k ∈ addressKeys d
  · simpa [hc]
  · simp [hc, List.nodup_append, h, List.disjoint_singleton]

lemma mem_addressKeys_upsert (d : AddressDict) (k : String) (e : MeetingDetail) (a : String) :
    a ∈ addressKeys (upsertDetail d k e) ↔ a ∈ addressKeys d ∨ a = k := by
  rw [addressKeys_upsert]
  by_cases hc : k ∈ addressKeys d
  · rw [if_pos hc]
    constructor
    · exact fun h => Or.inl h
    · rintro (h | rfl)
      · exact h
      · exact hc
  · rw [if_neg hc]
    simp

/-! Lemmas about the fold that builds the grouping index. -/

lemma entriesAt_foldl_upsert (addrs : List String) (d : AddressDict)
    (e : MeetingDetail) (a : String) :
    entriesAt (addrs.foldl (fun d2 x => upsertDetail d2 x e) d) a =
      entriesAt d a ++ List.replicate (addrs.count a) e := by
  induction addrs generalizing d with
  | nil => simp
  | cons x addrs ih =>
    rw [List.foldl_cons, ih, entriesAt_upsert]
    by_cases hx : x = a
    · subst hx
      simp [List.count_cons, List.replicate_succ, List.append_assoc]
    · have hx' : ¬ a = x := fun hh => hx hh.symm
      simp [List.count_cons, hx, hx']

lemma mem_addressKeys_foldl_upsert (addrs : List String) (d : AddressDict)
    (e : MeetingDetail) (a : String) :
    a ∈ addressKeys (addrs.foldl (fun d2 x => upsertDetail d2 x e) d) ↔
      a ∈ addressKeys d ∨ a ∈ addrs := by
  induction addrs generalizing d with
  | nil => simp
  | cons x addrs ih =>
    rw [List.foldl_cons, ih, mem_addressKeys_upsert]
    constructor
    · rintro ((h | rfl) | h)
      · exact Or.inl h
      · exact Or.inr (List.mem_cons_self _ _)
      · exact Or.inr (List.mem_cons_of_mem _ h)
    · rintro (h | h)
      · exact Or.inl (Or.inl h)
      · rcases List.mem_cons.mp h with rfl | h2
        · exact Or.inl (Or.inr rfl)
        · exact Or.inr h2

lemma nodup_addressKeys_foldl_upsert (addrs : List String) (d : AddressDict)
    (e : MeetingDetail) (h : (addressKeys d).Nodup) :
    (addressKeys (addrs.foldl (fun d2 x => upsertDetail d2 x e) d)).Nodup := by
  induction addrs generalizing d with
  | nil => exact h
  | cons x addrs ih =>
    rw [List.foldl_cons]
    exact ih _ (nodup_addressKeys_upsert _ _ _ h)

lemma entriesAt_group_aux (videos : List VideoInfo) (base : String)
    (d : AddressDict) (a : String) :
    entriesAt (videos.foldl
        (fun dd v => (shortFindAll v.description).foldl
          (fun d2 x => upsertDetail d2 x (videoDetailOf base v)) dd) d) a =
      entriesAt d a ++ videos.flatMap
        (fun v => List.replicate ((shortFindAll v.description).count a)
          (videoDetailOf base v)) := by
  induction videos generalizing d with
  | nil => simp
  | cons v videos ih =>
    rw [List.foldl_cons, ih, entriesAt_foldl_upsert]
    simp [List.append_assoc]

lemma entriesAt_group (videos : List VideoInfo) (base : String) (a : String) :
    entriesAt (group_videos_with_short_addresses videos base) a =
      videos.flatMap
        (fun v => List.replicate ((shortFindAll v.description).count a)
          (videoDetailOf base v)) := by
  unfold group_videos_with_short_addresses
  rw [entriesAt_group_aux]
  rfl

lemma mem_addressKeys_group_aux (videos : List VideoInfo) (base : String)
    (d : AddressDict) (a : String) :
    a ∈ addressKeys (videos.foldl
        (fun dd v => (shortFindAll v.description).foldl
          (fun d2 x => upsertDetail d2 x (videoDetailOf base v)) dd) d) ↔
      a ∈ addressKeys d ∨ ∃ v ∈ videos, a ∈ shortFindAll v.description := by
  induction videos generalizing d with
  | nil => simp
  | cons v videos ih =>
    rw [List.foldl_cons, ih, mem_addressKeys_foldl_upsert]
    constructor
    · rintro ((h | h) | ⟨w, hw, hmem⟩)
      · exact Or.inl h
      · exact Or.inr ⟨v, List.mem_cons_self _ _, h⟩
      · exact Or.inr ⟨w, List.mem_cons_of_mem _ hw, hmem⟩
    · rintro (h | ⟨w, hw, hmem⟩)
      · exact Or.inl (Or.inl h)
      · rcases List.mem_cons.mp hw with rfl | hw2
        · exact Or.inl (Or.inr hmem)
        · exact Or.inr ⟨w, hw2, hmem⟩

lemma mem_addressKeys_group (videos : List VideoInfo) (base : String) (a : String) :
    a ∈ addressKeys (group_videos_with_short_addresses videos base) ↔
      ∃ v ∈ videos, a ∈ shortFindAll v.description := by
  unfold group_videos_with_short_addresses
  rw [mem_addressKeys_group_aux]
  simp [addressKeys]

lemma nodup_addressKeys_group (videos : List VideoInfo) (base : String) :
    (addressKeys (group_videos_with_short_addresses videos base)).Nodup := by
  unfold group_videos_with_short_addresses
  have h : ∀ (vs : List VideoInfo) (d : AddressDict), (addressKeys d).Nodup →
      (addressKeys (vs.foldl
        (fun dd v => (shortFindAll v.description).foldl
          (fun d2 x => upsertDetail d2 x (videoDetailOf base v)) dd) d)).Nodup := by
    intro vs
    induction vs with
    | nil => exact fun d hd => hd
    | cons v vs ih =>
      intro d hd
      rw [List.foldl_cons]
      exact ih _ (nodup_addressKeys_foldl_upsert _ _ _ hd)
  exact h videos [] (by simp [addressKeys])

/-! Shape lemmas about the video-pattern matches: every match starts with a
digit and ends with a letter, hence is unchanged by whitespace trimming. -/

lemma isSpaceCh_eq_false_of_isDigit (c : Char) (h : c.isDigit = true) :
    isSpaceCh c = false := by
  have e1 : c ≠ ' ' := by rintro rfl; exact absurd h (by decide)
  have e2 : c ≠ '\t' := by rintro rfl; exact absurd h (by decide)
  have e3 : c ≠ '\n' := by rintro rfl; exact absurd h (by decide)
  have e4 : c ≠ '\r' := by rintro rfl; exact absurd h (by decide)
  have e5 : c ≠ '\x0b' := by rintro rfl; exact absurd h (by decide)
  have e6 : c ≠ '\x0c' := by rintro rfl; exact absurd h (by decide)
  simp [isSpaceCh, e1, e2, e3, e4, e5, e6]

lemma isSpaceCh_eq_false_of_isAlpha (c : Char) (h : c.isAlpha = true) :
    isSpaceCh c = false := by
  have e1 : c ≠ ' ' := by rintro rfl; exact absurd h (by decide)
  have e2 : c ≠ '\t' := by rintro rfl; exact absurd h (by decide)
  have e3 : c ≠ '\n' := by rintro rfl; exact absurd h (by decide)
  have e4 : c ≠ '\r' := by rintro rfl; exact absurd h (by decide)
  have e5 : c ≠ '\x0b' := by rintro rfl; exact absurd h (by decide)
  have e6 : c ≠ '\x0c' := by rintro rfl; exact absurd h (by decide)
  simp [isSpaceCh, e1, e2, e3, e4, e5, e6]

lemma head?_takeWhile_sat (p : Char → Bool) (l : List Char) (c : Char)
    (h : (l.takeWhile p).head? = some c) : p c = true := by
  cases l with
  | nil => simp [List.takeWhile] at h
  | cons x xs =>
    rw [List.takeWhile_cons] at h
    by_cases hp : p x = true
    · simp [hp] at h
      exact h ▸ hp
    · simp [hp] at h

lemma tryShortSuffix_mem (ss : List String) (l : List Char)
    (p : List Char × List Char) (h : tryShortSuffix ss l = some p) :
    p.1 ∈ ss.map String.data := by
  induction ss with
  | nil => simp [tryShortSuffix] at h
  | cons s ss ih =>
    rw [tryShortSuffix] at h
    by_cases hc : ((l.take s.length == s.data) && boundaryAfter (l.drop s.length)) = true
    · rw [if_pos hc] at h
      cases h
      simp
    · rw [if_neg hc] at h
      simp only [List.map_cons, List.mem_cons]
      exact Or.inr (ih h)

lemma shortSuffix_getLast_alpha (m : List Char)
    (h : m ∈ shortSuffixes.map String.data) :
    ∃ c, m.getLast? = some c ∧ c.isAlpha = true := by
  have : ∀ m2 ∈ shortSuffixes.map String.data,
      ∃ c, m2.getLast? = some c ∧ c.isAlpha = true := by decide
  exact this m h

lemma wordRunsThenSuffix_getLast (n : Nat) (l : List Char)
    (p : List Char × List Char) (h : wordRunsThenSuffix n l = some p) :
    ∃ c, p.1.getLast? = some c ∧ c.isAlpha = true := by
  induction n generalizing l p with
  | zero =>
    rw [wordRunsThenSuffix] at h
    cases hw : wordSpace l with
    | none => rw [hw] at h; dsimp only at h; cases h
    | some w =>
      rw [hw] at h
      dsimp only at h
      cases hs : tryShortSuffix shortSuffixes w.2 with
      | none => rw [hs] at h; dsimp only at h; cases h
      | some q =>
        rw [hs] at h
        dsimp only at h
        cases h
        obtain ⟨c, hc, hca⟩ := shortSuffix_getLast_alpha q.1 (tryShortSuffix_mem _ _ _ hs)
        refine ⟨c, ?_, hca⟩
        show (w.1 ++ q.1).getLast? = some c
        rw [List.getLast?_append, hc]
        rfl
  | succ m ih =>
    rw [wordRunsThenSuffix] at h
    cases hw : wordSpace l with
    | none => rw [hw] at h; dsimp only at h; cases h
    | some w =>
      rw [hw] at h
      dsimp only at h
      cases hr : wordRunsThenSuffix m w.2 with
      | none =>
        rw [hr] at h
        dsimp only at h
        cases hs : tryShortSuffix shortSuffixes w.2 with
        | none => rw [hs] at h; dsimp only at h; cases h
        | some q =>
          rw [hs] at h
          dsimp only at h
          cases h
          obtain ⟨c, hc, hca⟩ := shortSuffix_getLast_alpha q.1 (tryShortSuffix_mem _ _ _ hs)
          refine ⟨c, ?_, hca⟩
          show (w.1 ++ q.1).getLast? = some c
          rw [List.getLast?_append, hc]
          rfl
      | some q =>
        rw [hr] at h
        dsimp only at h
        cases h
        obtain ⟨c, hc, hca⟩ := ih _ _ hr
        refine ⟨c, ?_, hca⟩
        show (w.1 ++ q.1).getLast? = some c
        rw [List.getLast?_append, hc]
        rfl

lemma directionThenRuns_getLast (l : List Char)
    (p : List Char × List Char) (h : directionThenRuns l = some p) :
    ∃ c, p.1.getLast? = some c ∧ c.isAlpha = true := by
  unfold directionThenRuns at h
  cases l with
  | nil => exact wordRunsThenSuffix_getLast _ _ _ h
  | cons c rest =>
    cases rest with
    | nil => exact wordRunsThenSuffix_getLast _ _ _ h
    | cons s rest2 =>
      dsimp only at h
      by_cases hc : ((c = 'N' || c = 'S' || c = 'E' || c = 'W') && isSpaceCh s) = true
      · rw [if_pos hc] at h
        cases hr : wordRunsThenSuffix 2 rest2 with
        | none =>
          rw [hr] at h
          dsimp only at h
          exact wordRunsThenSuffix_getLast _ _ _ h
        | some q =>
          rw [hr] at h
          dsimp only at h
          cases h
          obtain ⟨c2, hc2, hca⟩ := wordRunsThenSuffix_getLast _ _ _ hr
          refine ⟨c2, ?_, hca⟩
          have hq : q.1 ≠ [] := by
            intro hnil
            rw [hnil] at hc2
            simp at hc2
          show (c :: s :: q.1).getLast? = some c2
          cases q1 : q.1 with
          | nil => exact absurd q1 hq
          | cons y ys =>
            rw [q1] at hc2
            rw [List.getLast?_cons_cons, List.getLast?_cons_cons, hc2]
      · rw [if_neg hc] at h
        exact wordRunsThenSuffix_getLast _ _ _ h

lemma shortMatchHere_shape (l : List Char) (m : List Char)
    (h : shortMatchHere l = some m) :
    (∃ c, m.head? = some c ∧ c.isDigit = true) ∧
    (∃ c, m.getLast? = some c ∧ c.isAlpha = true) := by
  unfold shortMatchHere at h
  by_cases hd : ((l.takeWhile Char.isDigit).isEmpty || decide (5 < (l.takeWhile Char.isDigit).length)) = true
  · rw [if_pos hd] at h; cases h
  · rw [if_neg hd] at h
    cases hdrop : l.drop (l.takeWhile Char.isDigit).length with
    | nil => rw [hdrop] at h; dsimp only at h; cases h
    | cons c rest =>
      rw [hdrop] at h
      dsimp only at h
      by_cases hs : isSpaceCh c = true
      · rw [if_pos hs] at h
        cases hr : directionThenRuns rest with
        | none => rw [hr] at h; dsimp only at h; cases h
        | some p =>
          rw [hr] at h
          dsimp only at h
          cases h
          constructor
          · have hne : ¬ (l.takeWhile Char.isDigit).isEmpty = true := by
              intro hem
              rw [hem] at hd
              exact hd (by simp)
            cases ht : l.takeWhile Char.isDigit with
            | nil => rw [ht] at hne; exact absurd rfl hne
            | cons x xs =>
              refine ⟨x, ?_, ?_⟩
              · rfl
              · exact head?_takeWhile_sat Char.isDigit l x (by rw [ht]; rfl)
          · obtain ⟨c2, hc2, hca⟩ := directionThenRuns_getLast _ _ hr
            refine ⟨c2, ?_, hca⟩
            rw [List.getLast?_append]
            have hq : p.1 ≠ [] := by
              intro hnil
              rw [hnil] at hc2
              simp at hc2
            cases q1 : p.1 with
            | nil => exact absurd q1 hq
            | cons y ys =>
              rw [q1] at hc2
              rw [List.getLast?_cons_cons, hc2]
              rfl
      · rw [if_neg hs] at h; cases h

lemma shortScan_from_match (fuel : Nat) (pw : Bool) (l : List Char)
    (m : List Char) (h : m ∈ shortScan fuel pw l) :
    ∃ l2, shortMatchHere l2 = some m := by
  induction fuel generalizing pw l with
  | zero => simp [shortScan] at h
  | succ fuel ih =>
    cases l with
    | nil => simp [shortScan] at h
    | cons c rest =>
      rw [shortScan] at h
      by_cases hp : (!pw) = true
      · rw [if_pos hp] at h
        cases hm : shortMatchHere (c :: rest) with
        | none =>
          rw [hm] at h
          exact ih _ _ h
        | some m2 =>
          rw [hm] at h
          rcases List.mem_cons.mp h with rfl | h2
          · exact ⟨c :: rest, hm⟩
          · exact ih _ _ h2
      · rw [if_neg hp] at h
        exact ih _ _ h

lemma trimChars_eq_self (l : List Char) (c c2 : Char)
    (hh : l.head? = some c) (hcs : isSpaceCh c = false)
    (hl : l.getLast? = some c2) (hcs2 : isSpaceCh c2 = false) :
    trimChars l = l := by
  unfold trimChars
  have h1 : l.dropWhile isSpaceCh = l := by
    cases l with
    | nil => rfl
    | cons x xs =>
      cases hh
      simp [List.dropWhile_cons, hcs]
  rw [h1]
  have h2 : l.reverse.dropWhile isSpaceCh = l.reverse := by
    cases hr : l.reverse with
    | nil => rfl
    | cons x xs =>
      have : l.reverse.head? = some x := by rw [hr]; rfl
      rw [List.head?_reverse] at this
      rw [hl] at this
      cases this
      rw [← hr]
      rw [hr]
      simp [List.dropWhile_cons, hcs2]
  rw [h2, List.reverse_reverse]

lemma shortFindAll_shape (text : String) (s : String) (h : s ∈ shortFindAll text) :
    (∃ c, s.data.head? = some c ∧ c.isDigit = true) ∧
    (∃ c, s.data.getLast? = some c ∧ c.isAlpha = true) := by
  unfold shortFindAll at h
  rcases List.mem_map.mp h with ⟨m, hm, rfl⟩
  obtain ⟨l2, hl2⟩ := shortScan_from_match _ _ _ _ hm
  exact shortMatchHere_shape _ _ hl2

lemma trimStr_shortFindAll (text : String) (s : String) (h : s ∈ shortFindAll text) :
    trimStr s = s := by
  obtain ⟨⟨c, hc, hcd⟩, ⟨c2, hc2, hca⟩⟩ := shortFindAll_shape text s h
  unfold trimStr
  rw [trimChars_eq_self s.data c c2 hc (isSpaceCh_eq_false_of_isDigit c hcd)
    hc2 (isSpaceCh_eq_false_of_isAlpha c2 hca)]

/-! Emptiness lemmas for claim C8: the video pattern needs a digit at a word
boundary, the agenda pattern needs a digit anywhere. -/

lemma shortMatchHere_eq_none_of_not_digit (c : Char) (rest : List Char)
    (h : c.isDigit = false) : shortMatchHere (c :: rest) = none := by
  unfold shortMatchHere
  rw [List.takeWhile_cons, h]
  rfl

lemma shortScan_eq_nil (fuel : Nat) (pw : Bool) (l : List Char)
    (h : digitLedTokenAux pw l = false) : shortScan fuel pw l = [] := by
  induction fuel generalizing pw l with
  | zero => rfl
  | succ fuel ih =>
    cases l with
    | nil => rfl
    | cons c rest =>
      rw [digitLedTokenAux, Bool.or_eq_false_iff] at h
      rw [shortScan]
      cases hp : pw with
      | true =>
        rw [show (!true) = false from rfl, if_neg (by simp)]
        exact ih _ _ h.2
      | false =>
        have hdc : c.isDigit = false := by
          have := h.1
          rw [hp] at this
          simpa using this
        rw [shortMatchHere_eq_none_of_not_digit c rest hdc]
        simp only [Bool.not_false, if_pos rfl]
        exact ih _ _ h.2

lemma hasDigitLedToken_shortFindAll (text : String)
    (h : hasDigitLedToken text = false) : shortFindAll text = [] := by
  unfold shortFindAll
  rw [shortScan_eq_nil _ _ _ h]
  rfl

lemma pdfMatchHere_eq_none_of_not_digit (c : Char) (rest : List Char)
    (h : c.isDigit = false) : pdfMatchHere (c :: rest) = none := by
  unfold pdfMatchHere
  rw [List.takeWhile_cons, h]
  rfl

lemma pdfScan_eq_nil (fuel : Nat) (l : List Char)
    (h : ∀ c ∈ l, c.isDigit = false) : pdfScan fuel l = [] := by
  induction fuel generalizing l with
  | zero => rfl
  | succ fuel ih =>
    cases l with
    | nil => rfl
    | cons c rest =>
      rw [pdfScan, pdfMatchHere_eq_none_of_not_digit c rest (h c (List.mem_cons_self _ _))]
      exact ih _ (fun c2 hc2 => h c2 (List.mem_cons_of_mem _ hc2))

lemma splitSections_subset (fuel : Nat) (acc l : List Char) (sec : List Char)
    (hsec : sec ∈ splitSections fuel acc l) (c : Char) (hc : c ∈ sec) :
    c ∈ acc ∨ c ∈ l := by
  induction fuel generalizing acc l with
  | zero =>
    rw [splitSections] at hsec
    rcases List.mem_singleton.mp hsec with rfl
    rcases List.mem_append.mp hc with h2 | h2
    · exact Or.inl (List.mem_reverse.mp h2)
    · exact Or.inr h2
  | succ fuel ih =>
    cases l with
    | nil =>
      rw [splitSections] at hsec
      rcases List.mem_singleton.mp hsec with rfl
      exact Or.inl (List.mem_reverse.mp hc)
    | cons x rest =>
      rw [splitSections] at hsec
      by_cases hd : delimAt (x :: rest) = true
      · rw [if_pos hd] at hsec
        rcases List.mem_cons.mp hsec with rfl | h2
        · exact Or.inl (List.mem_reverse.mp hc)
        · rcases ih [] _ h2 with h3 | h3
          · exact absurd h3 (List.not_mem_nil c)
          · exact Or.inr (List.mem_of_mem_drop h3)
      · rw [if_neg hd] at hsec
        rcases ih (x :: acc) rest hsec with h3 | h3
        · rcases List.mem_cons.mp h3 with rfl | h4
          · exact Or.inr (List.mem_cons_self _ _)
          · exact Or.inl h4
        · exact Or.inr (List.mem_cons_of_mem _ h3)

lemma extract_addresses_from_text_eq_nil (text : String)
    (h : ∀ c ∈ text.data, c.isDigit = false) :
    extract_addresses_from_text text = [] := by
  unfold extract_addresses_from_text
  rw [List.flatMap_eq_nil_iff]
  intro sec hsec
  have hsub : ∀ c ∈ sec, c.isDigit = false := by
    intro c hc
    have hmem := splitSections_subset _ _ _ sec (List.mem_of_mem_drop hsec) c hc
    rcases hmem with h2 | h2
    · exact absurd h2 (List.not_mem_nil c)
    · exact h c h2
  rw [pdfScan_eq_nil _ _ hsub]
  rfl

/-! Lemmas about the two map builders. -/

lemma ytStep_calls (g : String → Option (Rat × Rat)) (acc : YtAcc)
    (kv : String × List MeetingDetail) :
    (ytStep g acc kv).calls = acc.calls ++ [kv.1] := by
  unfold ytStep
  dsimp only
  split <;> rfl

lemma ytFold_calls (g : String → Option (Rat × Rat)) (d : AddressDict) (acc : YtAcc) :
    (d.foldl (ytStep g) acc).calls = acc.calls ++ addressKeys d := by
  induction d generalizing acc with
  | nil => simp [addressKeys]
  | cons kv rest ih =>
    rw [List.foldl_cons, ih, ytStep_calls]
    simp [addressKeys]

lemma create_map_with_meeting_types_calls (d : AddressDict)
    (g : String → Option (Rat × Rat)) :
    (create_map_with_meeting_types d g).calls = addressKeys d := by
  unfold create_map_with_meeting_types
  dsimp only
  rw [ytFold_calls]
  rfl

lemma create_map_with_meeting_types_warnings (d : AddressDict)
    (g : String → Option (Rat × Rat)) :
    (create_map_with_meeting_types d g).warnings = [] := rfl

lemma create_map_with_meeting_types_center (d : AddressDict)
    (g : String → Option (Rat × Rat)) :
    (create_map_with_meeting_types d g).center = (39.7684, -86.1581) := rfl

lemma ytFold_markers_not_addr (g : String → Option (Rat × Rat)) (a : String)
    (lat lng : Rat) (hg : g a = some (lat, lng)) (h0 : lat = 0 ∨ lng = 0)
    (d : AddressDict) (acc : YtAcc)
    (hacc : ∀ m ∈ acc.markers, m.address ≠ a) :
    ∀ m ∈ (d.foldl (ytStep g) acc).markers, m.address ≠ a := by
  induction d generalizing acc with
  | nil => exact hacc
  | cons kv rest ih =>
    rw [List.foldl_cons]
    apply ih
    intro m hm
    unfold ytStep at hm
    dsimp only at hm
    by_cases hguard :
        (pyTruthy (geocode_address g kv.1).1 && pyTruthy (geocode_address g kv.1).2) = true
    · rw [if_pos hguard] at hm
      dsimp only at hm
      rcases List.mem_append.mp hm with h2 | h2
      · exact hacc m h2
      · rcases List.mem_singleton.mp h2 with rfl
        dsimp only
        intro heq
        rw [heq] at hguard
        unfold geocode_address at hguard
        rw [hg] at hguard
        dsimp only at hguard
        simp only [pyTruthy, Bool.and_eq_true, Bool.not_eq_true'] at hguard
        rcases h0 with h0 | h0
        · rw [h0] at hguard
          exact absurd hguard.1 (by simp)
        · rw [h0] at hguard
          exact absurd hguard.2 (by simp)
    · rw [if_neg hguard] at hm
      exact hacc m hm

lemma agendaStep_calls (g : String → Option (Rat × Rat)) (ag : String)
    (acc : AgendaAcc) (a0 : String) :
    (agendaStep g ag acc a0).calls = acc.calls ++ [withDefaultSuffix a0] := by
  unfold agendaStep
  dsimp only
  cases g (withDefaultSuffix a0) <;> rfl

lemma agendaStep_warnings (g : String → Option (Rat × Rat)) (ag : String)
    (acc : AgendaAcc) (a0 : String) :
    (agendaStep g ag acc a0).warnings = acc.warnings ++ missWarning g a0 := by
  unfold agendaStep missWarning
  dsimp only
  cases g (withDefaultSuffix a0) <;> simp

lemma agendaStep_coords (g : String → Option (Rat × Rat)) (ag : String)
    (acc : AgendaAcc) (a0 : String)
    (hlat : acc.latitudes = acc.markers.map AgendaMarker.lat)
    (hlng : acc.longitudes = acc.markers.map AgendaMarker.lng) :
    (agendaStep g ag acc a0).latitudes
        = (agendaStep g ag acc a0).markers.map AgendaMarker.lat ∧
    (agendaStep g ag acc a0).longitudes
        = (agendaStep g ag acc a0).markers.map AgendaMarker.lng := by
  unfold agendaStep
  dsimp only
  cases g (withDefaultSuffix a0) <;> simp [hlat, hlng]

lemma agendaFold_addrs_calls (g : String → Option (Rat × Rat)) (ag : String)
    (addrs : List String) (acc : AgendaAcc) :
    (addrs.foldl (agendaStep g ag) acc).calls
      = acc.calls ++ addrs.map withDefaultSuffix := by
  induction addrs generalizing acc with
  | nil => simp
  | cons a0 addrs ih =>
    rw [List.foldl_cons, ih, agendaStep_calls]
    simp

lemma agendaFold_addrs_warnings (g : String → Option (Rat × Rat)) (ag : String)
    (addrs : List String) (acc : AgendaAcc) :
    (addrs.foldl (agendaStep g ag) acc).warnings
      = acc.warnings ++ addrs.flatMap (missWarning g) := by
  induction addrs generalizing acc with
  | nil => simp
  | cons a0 addrs ih =>
    rw [List.foldl_cons, ih, agendaStep_warnings]
    simp

lemma agendaFold_addrs_coords (g : String → Option (Rat × Rat)) (ag : String)
    (addrs : List String) (acc : AgendaAcc)
    (hlat : acc.latitudes = acc.markers.map AgendaMarker.lat)
    (hlng : acc.longitudes = acc.markers.map AgendaMarker.lng) :
    (addrs.foldl (agendaStep g ag) acc).latitudes
        = (addrs.foldl (agendaStep g ag) acc).markers.map AgendaMarker.lat ∧
    (addrs.foldl (agendaStep g ag) acc).longitudes
        = (addrs.foldl (agendaStep g ag) acc).markers.map AgendaMarker.lng := by
  induction addrs generalizing acc with
  | nil => exact ⟨hlat, hlng⟩
  | cons a0 addrs ih =>
    rw [List.foldl_cons]
    obtain ⟨h1, h2⟩ := agendaStep_coords g ag acc a0 hlat hlng
    exact ih _ h1 h2

lemma create_map_fold_calls (g : String → Option (Rat × Rat)) (ms : List Meeting)
    (acc : AgendaAcc) :
    (ms.foldl (fun a m => m.addresses.foldl (agendaStep g m.agenda) a) acc).calls
      = acc.calls ++ ms.flatMap (fun m => m.addresses.map withDefaultSuffix) := by
  induction ms generalizing acc with
  | nil => simp
  | cons m ms ih =>
    rw [List.foldl_cons, ih, agendaFold_addrs_calls]
    simp

lemma create_map_fold_warnings (g : String → Option (Rat × Rat)) (ms : List Meeting)
    (acc : AgendaAcc) :
    (ms.foldl (fun a m => m.addresses.foldl (agendaStep g m.agenda) a) acc).warnings
      = acc.warnings ++ ms.flatMap (fun m => m.addresses.flatMap (missWarning g)) := by
  induction ms generalizing acc with
  | nil => simp
  | cons m ms ih =>
    rw [List.foldl_cons, ih, agendaFold_addrs_warnings]
    simp

lemma create_map_fold_coords (g : String → Option (Rat × Rat)) (ms : List Meeting)
    (acc : AgendaAcc)
    (hlat : acc.latitudes = acc.markers.map AgendaMarker.lat)
    (hlng : acc.longitudes = acc.markers.map AgendaMarker.lng) :
    (ms.foldl (fun a m => m.addresses.foldl (agendaStep g m.agenda) a) acc).latitudes
        = (ms.foldl (fun a m => m.addresses.foldl (agendaStep g m.agenda) a) acc).markers.map
            AgendaMarker.lat ∧
    (ms.foldl (fun a m => m.addresses.foldl (agendaStep g m.agenda) a) acc).longitudes
        = (ms.foldl (fun a m => m.addresses.foldl (agendaStep g m.agenda) a) acc).markers.map
            AgendaMarker.lng := by
  induction ms generalizing acc with
  | nil => exact ⟨hlat, hlng⟩
  | cons m ms ih =>
    rw [List.foldl_cons]
    obtain ⟨h1, h2⟩ := agendaFold_addrs_coords g m.agenda m.addresses acc hlat hlng
    exact ih _ h1 h2

lemma create_map_calls (meetings : List Meeting) (g : String → Option (Rat × Rat)) :
    (create_map meetings g).calls
      = meetings.flatMap (fun m => m.addresses.map withDefaultSuffix) := by
  unfold create_map
  dsimp only
  rw [create_map_fold_calls]
  rfl

lemma create_map_warnings (meetings : List Meeting) (g : String → Option (Rat × Rat)) :
    (create_map meetings g).warnings
      = meetings.flatMap (fun m => m.addresses.flatMap (missWarning g)) := by
  unfold create_map
  dsimp only
  rw [create_map_fold_warnings]
  rfl

lemma create_map_center (meetings : List Meeting) (g : String → Option (Rat × Rat)) :
    (create_map meetings g).center =
      if (create_map meetings g).markers = [] then ((40.7128 : Rat), (-74.0060 : Rat))
      else (listMean ((create_map meetings g).markers.map AgendaMarker.lat),
            listMean ((create_map meetings g).markers.map AgendaMarker.lng)) := by
  unfold create_map
  dsimp only
  obtain ⟨h1, h2⟩ := create_map_fold_coords g meetings
    ({ calls := [], markers := [], warnings := [], latitudes := [], longitudes := [] } : AgendaAcc)
    rfl rfl
  rw [h1, h2]
  by_cases hm : (meetings.foldl
      (fun a m => m.addresses.foldl (agendaStep g m.agenda) a)
      ({ calls := [], markers := [], warnings := [], latitudes := [], longitudes := [] } : AgendaAcc)).markers = []
  · rw [hm]
    simp
  · rw [if_neg hm]
    simp [List.isEmpty_iff, hm]

/-! Lemmas about the title parser, for claim C3. -/

lemma parseDateDash_some (l : List Char) (p : List Char × List Char)
    (h : parseDateDash l = some p) :
    l = p.1 ++ ' ' :: '-' :: ' ' :: p.2 ∧ p.1.length = 8 := by
  unfold parseDateDash at h
  split at h
  · split at h
    · cases h
      exact ⟨rfl, rfl⟩
    · cases h
  · cases h

lemma titleBeginsWithDateDash_eq_isSome (t : String) :
    titleBeginsWithDateDash t = (parseDateDash t.data).isSome := by
  unfold titleBeginsWithDateDash parseDateDash
  split
  · rename_i a b c d e f rest heq
    by_cases hd : (a.isDigit && b.isDigit && c.isDigit && d.isDigit && e.isDigit && f.isDigit) = true
    · rw [if_pos hd, hd]
      rfl
    · rw [if_neg hd]
      rw [Bool.not_eq_true] at hd
      rw [hd]
      rfl
  · rfl

lemma takeWhile_not_nl_isEmpty (l : List Char) :
    (l.takeWhile (fun ch => ch ≠ '\n')).isEmpty =
      (match l.head? with
       | some ch => ch = '\n'
       | none => true) := by
  cases l with
  | nil => rfl
  | cons ch tail =>
    rw [List.takeWhile_cons]
    by_cases hc : ch = '\n'
    · simp [hc]
    · simp [hc]

lemma extract_some_iff (t : String) :
    ((extract_meeting_details t).1.isSome && (extract_meeting_details t).2.isSome)
      = (titleBeginsWithDateDash t && titleHasCategoryChar t) := by
  rw [titleBeginsWithDateDash_eq_isSome]
  unfold extract_meeting_details titleHasCategoryChar
  cases hp : parseDateDash t.data with
  | none => rfl
  | some p =>
    dsimp only
    obtain ⟨heq, hlen⟩ := parseDateDash_some _ _ hp
    have hdrop : t.data.drop 11 = p.2 := by
      rw [heq]
      rw [show (11 : Nat) = p.1.length + 3 by rw [hlen]]
      rw [List.drop_append]
      rfl
    rw [hdrop]
    cases hc : p.2 with
    | nil => simp
    | cons ch tail =>
      rw [takeWhile_not_nl_isEmpty]
      by_cases hnl : ch = '\n'
      · simp [hnl]
      · simp [hnl]

/-! Claim theorems. -/

/-- Claim C1, counterexample: with two records both mentioning "11 A St",
where the first record's description contains it twice, the grouping index
has a detail list of length three, not one entry per mentioning record (two).
The index key itself is unique, but "one entry per mentioning record" fails:
the code appends one entry per extracted occurrence. -/
theorem claim_C1_counterexample :
    (([⟨"v1", "t1", "11 A St 11 A St"⟩, ⟨"v2", "t2", "11 A St"⟩] : List VideoInfo).filter
        (fun v => (shortFindAll v.description).contains "11 A St")).length = 2 ∧
    (entriesAt (group_videos_with_short_addresses
        [⟨"v1", "t1", "11 A St 11 A St"⟩, ⟨"v2", "t2", "11 A St"⟩] "B") "11 A St").length = 3 ∧
    (entriesAt (group_videos_with_short_addresses
        [⟨"v1", "t1", "11 A St 11 A St"⟩, ⟨"v2", "t2", "11 A St"⟩] "B") "11 A St").length ≠
      (([⟨"v1", "t1", "11 A St 11 A St"⟩, ⟨"v2", "t2", "11 A St"⟩] : List VideoInfo).filter
        (fun v => (shortFindAll v.description).contains "11 A St")).length := by
  refine ⟨by decide, by decide, by decide⟩

/-- Claim C1 as amended: for every record sequence and address, the grouping
index has exactly one key entry for the address when some record mentions it
(none otherwise), and its detail list holds one entry per occurrence of the
address in each record's extracted-address sequence, concatenated in record
processing order. -/
theorem claim_C1_grouping (videos : List VideoInfo) (base a : String) :
    (addressKeys (group_videos_with_short_addresses videos base)).count a
      = (if ∃ v ∈ videos, a ∈ shortFindAll v.description then 1 else 0) ∧
    entriesAt (group_videos_with_short_addresses videos base) a
      = videos.flatMap (fun v =>
          List.replicate ((shortFindAll v.description).count a) (videoDetailOf base v)) := by
  constructor
  · by_cases hm : ∃ v ∈ videos, a ∈ shortFindAll v.description
    · rw [if_pos hm]
      exact List.count_eq_one_of_mem (nodup_addressKeys_group videos base)
        ((mem_addressKeys_group videos base a).mpr hm)
    · rw [if_neg hm]
      rw [List.count_eq_zero]
      intro hmem
      exact hm ((mem_addressKeys_group videos base a).mp hmem)
  · exact entriesAt_group videos base a

/-- Claim C2: the grouping index never holds two distinct keys that coincide
after trimming surrounding whitespace (every key is an exact regex match,
which starts with a digit and ends with a letter, so trimming is the
identity on keys); keys are pairwise distinct and appear verbatim in some
record's extraction output, with no canonicalization. -/
theorem claim_C2_key_identity (videos : List VideoInfo) (base : String)
    (k1 k2 : String)
    (h1 : k1 ∈ addressKeys (group_videos_with_short_addresses videos base))
    (h2 : k2 ∈ addressKeys (group_videos_with_short_addresses videos base))
    (heq : trimStr k1 = trimStr k2) :
    k1 = k2 ∧ (addressKeys (group_videos_with_short_addresses videos base)).Nodup ∧
    ∃ v ∈ videos, k1 ∈ shortFindAll v.description := by
  obtain ⟨v1, hv1, hk1⟩ := (mem_addressKeys_group videos base k1).mp h1
  obtain ⟨v2, hv2, hk2⟩ := (mem_addressKeys_group videos base k2).mp h2
  have t1 := trimStr_shortFindAll _ _ hk1
  have t2 := trimStr_shortFindAll _ _ hk2
  exact ⟨by rw [← t1, heq, t2], nodup_addressKeys_group videos base, v1, hv1, hk1⟩

/-- Claim C2, witness at a concrete index. -/
theorem claim_C2_key_identity_witness :
    ("123 Main St" ∈ addressKeys
        (group_videos_with_short_addresses [⟨"v1", "t", "123 Main St"⟩] "B")) ∧
    trimStr "123 Main St" = trimStr "123 Main St" ∧
    "123 Main St" = "123 Main St" :=
  ⟨by decide, rfl,
   (claim_C2_key_identity [⟨"v1", "t", "123 Main St"⟩] "B" "123 Main St" "123 Main St"
     (by decide) (by decide) rfl).1⟩

/-- Claim C3, counterexample: the title "11/26/25 - " begins with a
two-digit/two-digit/two-digit date followed by " - ", yet the parser returns
(None, None), because the regex group (.+) requires at least one character
after " - ". -/
theorem claim_C3_counterexample :
    titleBeginsWithDateDash "11/26/25 - " = true ∧
    extract_meeting_details "11/26/25 - " = (none, none) := by
  exact ⟨by decide, rfl⟩

/-- Claim C3 as amended: the parser returns both fields exactly when the
title begins with the date template and at least one non-newline character
follows " - " (the category is the remainder up to the first newline);
otherwise both fields are absent.  The two concrete examples of the claim
hold. -/
theorem claim_C3_title_template :
    (∀ t : String,
      ((extract_meeting_details t).1.isSome && (extract_meeting_details t).2.isSome)
        = (titleBeginsWithDateDash t && titleHasCategoryChar t)) ∧
    extract_meeting_details "11/26/25 - Fortville Plan Commission"
      = (some "11/26/25", some "Fortville Plan Commission") ∧
    extract_meeting_details "Fortville Plan Commission" = (none, none) :=
  ⟨extract_some_iff, by decide, rfl⟩

/-- Claim C4, counterexample: an extracted comma-free address is upserted
into the grouping index verbatim; no default locality suffix is appended at
upsert time (the suffixed form is not a key). -/
theorem claim_C4_counterexample :
    addressKeys (group_videos_with_short_addresses [⟨"v1", "t", "123 Main St"⟩] "B")
      = ["123 Main St"] ∧
    ("123 Main St").data.contains ',' = false ∧
    "123 Main St, Fortville, IN" ∉
      addressKeys (group_videos_with_short_addresses [⟨"v1", "t", "123 Main St"⟩] "B") := by
  refine ⟨by decide, by decide, by decide⟩

/-- Claim C4 as amended: the agenda pipeline's create_map hands every
address occurrence to the geocoder with the default ", Fortville, IN"
appended exactly when the address has no comma, while the video pipeline's
grouping index stores each key verbatim as extracted (so geocoding of index
keys happens without any suffix). -/
theorem claim_C4_suffixing (meetings : List Meeting) (g : String → Option (Rat × Rat))
    (videos : List VideoInfo) (base k : String)
    (hk : k ∈ addressKeys (group_videos_with_short_addresses videos base)) :
    (create_map meetings g).calls
      = meetings.flatMap (fun m => m.addresses.map withDefaultSuffix) ∧
    ∃ v ∈ videos, k ∈ shortFindAll v.description := by
  exact ⟨create_map_calls meetings g, (mem_addressKeys_group videos base k).mp hk⟩

/-- Claim C4, witness at a concrete meeting list and index. -/
theorem claim_C4_suffixing_witness :
    ("123 Main St" ∈ addressKeys
        (group_videos_with_short_addresses [⟨"v1", "t", "123 Main St"⟩] "B")) ∧
    (create_map [⟨"Ag", "u", ["9 W Oak St"]⟩] (fun _ => none)).calls
      = ([⟨"Ag", "u", ["9 W Oak St"]⟩] : List Meeting).flatMap
          (fun m => m.addresses.map withDefaultSuffix) :=
  ⟨by decide,
   (claim_C4_suffixing [⟨"Ag", "u", ["9 W Oak St"]⟩] (fun _ => none)
     [⟨"v1", "t", "123 Main St"⟩] "B" "123 Main St" (by decide)).1⟩

/-- Claim C5, counterexample: in the video map builder a geocoder miss is
skipped (the address is geocoded once and yields no marker) but no
warning-level diagnostic is emitted — the function logs nothing. -/
theorem claim_C5_counterexample :
    (create_map_with_meeting_types [("123 Main St", [])] (fun _ => none)).calls
      = ["123 Main St"] ∧
    (create_map_with_meeting_types [("123 Main St", [])] (fun _ => none)).markers = [] ∧
    (create_map_with_meeting_types [("123 Main St", [])] (fun _ => none)).warnings = [] :=
  ⟨rfl, rfl, rfl⟩

/-- Claim C5 as amended: both builders call the geocoding collaborator
exactly once per address they process, in order, regardless of the results
(hence no retries and no abort on a miss); the agenda builder logs one
warning per miss, while the video builder emits no diagnostics at all. -/
theorem claim_C5_geocode_once (d : AddressDict) (meetings : List Meeting)
    (g : String → Option (Rat × Rat)) :
    (create_map_with_meeting_types d g).calls = addressKeys d ∧
    (create_map_with_meeting_types d g).warnings = [] ∧
    (create_map meetings g).calls
      = meetings.flatMap (fun m => m.addresses.map withDefaultSuffix) ∧
    (create_map meetings g).warnings
      = meetings.flatMap (fun m => m.addresses.flatMap (missWarning g)) :=
  ⟨create_map_with_meeting_types_calls d g,
   create_map_with_meeting_types_warnings d g,
   create_map_calls meetings g,
   create_map_warnings meetings g⟩

/-- Claim C6, counterexample: the video map builder produced one marker at
latitude 10 and longitude 20, but the viewport center is the fixed
[39.7684, -86.1581], not the arithmetic mean of the marker coordinates. -/
theorem claim_C6_counterexample :
    (create_map_with_meeting_types [("A", [])] (fun _ => some (10, 20))).markers.map
        YtMarker.lat = [10] ∧
    (create_map_with_meeting_types [("A", [])] (fun _ => some (10, 20))).markers.map
        YtMarker.lng = [20] ∧
    (create_map_with_meeting_types [("A", [])] (fun _ => some (10, 20))).center
      ≠ (listMean [10], listMean [20]) := by
  refine ⟨rfl, rfl, ?_⟩
  rw [create_map_with_meeting_types_center]
  intro h
  rw [Prod.mk.injEq] at h
  have h1 := h.1
  rw [listMean] at h1
  norm_num at h1

/-- Claim C6 as amended: the agenda pipeline's create_map centers the map on
the arithmetic mean of the marker coordinates when at least one marker was
produced and on the fixed default [40.7128, -74.0060] otherwise, while the
video pipeline's builder always uses the fixed center [39.7684, -86.1581]
regardless of markers. -/
theorem claim_C6_viewport (meetings : List Meeting) (d : AddressDict)
    (g : String → Option (Rat × Rat)) :
    ((create_map meetings g).markers = [] →
        (create_map meetings g).center = (40.7128, -74.0060)) ∧
    ((create_map meetings g).markers ≠ [] →
        (create_map meetings g).center
          = (listMean ((create_map meetings g).markers.map AgendaMarker.lat),
             listMean ((create_map meetings g).markers.map AgendaMarker.lng))) ∧
    (create_map_with_meeting_types d g).center = (39.7684, -86.1581) := by
  refine ⟨?_, ?_, rfl⟩
  · intro hm
    rw [create_map_center, if_pos hm]
  · intro hm
    rw [create_map_center, if_neg hm]

/-- Claim C6, witness: a run with no meetings gets the default center, and a
run with one geocoded address gets the mean center. -/
theorem claim_C6_viewport_witness :
    ((create_map [] (fun _ => none)).markers = [] ∧
     (create_map [] (fun _ => none)).center = (40.7128, -74.0060)) ∧
    ((create_map [⟨"Ag", "u", ["1 Oak St"]⟩] (fun _ => some (10, 20))).markers ≠ [] ∧
     (create_map [⟨"Ag", "u", ["1 Oak St"]⟩] (fun _ => some (10, 20))).center
       = (listMean ((create_map [⟨"Ag", "u", ["1 Oak St"]⟩]
             (fun _ => some (10, 20))).markers.map AgendaMarker.lat),
          listMean ((create_map [⟨"Ag", "u", ["1 Oak St"]⟩]
             (fun _ => some (10, 20))).markers.map AgendaMarker.lng))) :=
  ⟨⟨rfl, (claim_C6_viewport [] [] (fun _ => none)).1 rfl⟩,
   ⟨by decide, (claim_C6_viewport [⟨"Ag", "u", ["1 Oak St"]⟩] [] (fun _ => some (10, 20))).2.1
     (by decide)⟩⟩

/-- Claim C7: on the text "Meeting agenda... Address: 123 W Main St." both
address extractors (the video-description pattern and the agenda-PDF
pattern) include the exact span "123 W Main St" in their output. -/
theorem claim_C7_extractor_includes :
    "123 W Main St" ∈ shortFindAll "Meeting agenda... Address: 123 W Main St." ∧
    "123 W Main St" ∈ pdfFindAll "Meeting agenda... Address: 123 W Main St." :=
  ⟨by decide, by decide⟩

/-- Claim C8, counterexample: the text "New Business abc123 def" contains no
token beginning with a digit, yet the agenda Address Extractor returns
["123 def"]: its pattern has no leading word boundary, so the digit run
inside the token "abc123" starts a match. -/
theorem claim_C8_counterexample :
    hasDigitLedToken "New Business abc123 def" = false ∧
    extract_addresses_from_text "New Business abc123 def" = ["123 def"] := by
  refine ⟨by decide, by decide⟩

/-- Claim C8 as amended: the video-description extractor returns the empty
sequence on every text with no digit-led token (its pattern starts with a
word boundary and a digit); the agenda extractor is only guaranteed empty
when the text contains no digit character at all.  Both results are normal
returns of total functions, not failures. -/
theorem claim_C8_no_digit_empty :
    (∀ text : String, hasDigitLedToken text = false → shortFindAll text = []) ∧
    (∀ text : String, (∀ c ∈ text.data, c.isDigit = false) →
        extract_addresses_from_text text = []) :=
  ⟨fun text h => hasDigitLedToken_shortFindAll text h,
   fun text h => extract_addresses_from_text_eq_nil text h⟩

/-- Claim C8, witness at concrete digit-free texts. -/
theorem claim_C8_no_digit_empty_witness :
    hasDigitLedToken "hello world" = false ∧
    shortFindAll "hello world" = [] ∧
    extract_addresses_from_text "New Business no digits here" = [] :=
  ⟨by decide, claim_C8_no_digit_empty.1 "hello world" (by decide),
   claim_C8_no_digit_empty.2 "New Business no digits here" (by decide)⟩

/-- Claim C9: with GOOGLE_API_KEY unset, main raises the ValueError before
any pipeline stage runs — no fetch, no saving, no grouping, no map
creation. -/
theorem claim_C9_missing_key_aborts :
    mainPipeline none = Except.error "GOOGLE_API_KEY environment variable is not set" := rfl

/-- Claim C10: when the geocoder returns a coordinate whose latitude or
longitude is exactly 0, the truthiness guard of
create_map_with_meeting_types treats it as a miss: no marker is produced for
that address, and the exclusion is silent (the builder never warns). -/
theorem claim_C10_zero_coordinate_dropped (d : AddressDict)
    (g : String → Option (Rat × Rat)) (a : String) (lat lng : Rat)
    (hg : g a = some (lat, lng)) (h0 : lat = 0 ∨ lng = 0) :
    ((create_map_with_meeting_types d g).markers.all
        (fun m => m.address ≠ a)) = true ∧
    (create_map_with_meeting_types d g).warnings = [] := by
  constructor
  · rw [List.all_eq_true]
    intro m hm
    have hfold : ∀ m2 ∈ (d.foldl (ytStep g) { calls := [], markers := [] }).markers,
        m2.address ≠ a :=
      ytFold_markers_not_addr g a lat lng hg h0 d { calls := [], markers := [] }
        (by intro m2 hm2; simp at hm2)
    have hm2 : m ∈ (d.foldl (ytStep g) { calls := [], markers := [] }).markers := hm
    simpa using hfold m hm2
  · rfl

/-- Claim C10, witness: a geocoder returning latitude 0 for the only index
address yields a map with no marker for it and no warnings. -/
theorem claim_C10_zero_coordinate_dropped_witness :
    ((fun _ : String => some ((0 : Rat), (5 : Rat))) "5 A St" = some (0, 5)) ∧
    ((create_map_with_meeting_types [("5 A St", [])]
        (fun _ => some ((0 : Rat), (5 : Rat)))).markers.all
          (fun m => m.address ≠ "5 A St")) = true ∧
    (create_map_with_meeting_types [("5 A St", [])]
        (fun _ => some ((0 : Rat), (5 : Rat)))).warnings = [] :=
  ⟨rfl,
   (claim_C10_zero_coordinate_dropped [("5 A St", [])]
     (fun _ => some ((0 : Rat), (5 : Rat))) "5 A St" 0 5 rfl (Or.inl rfl)).1,
   (claim_C10_zero_coordinate_dropped [("5 A St", [])]
     (fun _ => some ((0 : Rat), (5 : Rat))) "5 A St" 0 5 rfl (Or.inl rfl)).2⟩

end FortvilleScraper
